import Mathlib

/-!
Verification of the GA relay-coordination core of AutoDOC-MG.

The definitions below are a shallow embedding of the optimization core in
`src/scripts/ga_optimization_fast.py` (and, where it differs, the variant in
`src/scripts/optimize_all_scenarios.py`).  Python floats are modelled as real
numbers; the global pseudo-random stream is modelled by passing each random
draw explicitly as a parameter (one record of draws per generation).  Relay
names are replaced by their index under the source's `idx` mapping (a fixed
bijection per scenario), so a pair stores the two relay indices directly.
-/

namespace AutoDOC

/-- IEC curve constant `K = 0.14`. -/
def K : ℝ := 0.14

/-- IEC curve exponent `N = 0.02`. -/
def N : ℝ := 0.02

/-- Coordination time interval `CTI = 0.20`. -/
def CTI : ℝ := 0.20

/-- Lower bound for TDS genes. -/
def MIN_TDS : ℝ := 0.05

/-- Upper bound for TDS genes. -/
def MAX_TDS : ℝ := 0.8

/-- Lower bound for pickup genes. -/
def MIN_PICKUP : ℝ := 0.05

/-- Factor applied to the minimum fault current for the pickup upper bound. -/
def MAX_PICKUP_FACTOR : ℝ := 0.6

/-- Operating-time limit `MAX_TIME = 10.0`. -/
def MAX_TIME : ℝ := 10.0

/-- Population size `GA_Ni = 80`. -/
def GA_Ni : ℕ := 80

/-- Number of mutated gene positions per child, `GA_nMut = 2`. -/
def GA_nMut : ℕ := 2

/-- One main/backup relay pair of a scenario, with its fault currents.
Relay names are already resolved to indices via the source's `idx` map. -/
structure Pair where
  main_relay : ℕ
  backup_relay : ℕ
  Ishc_main : ℝ
  Ishc_backup : ℝ

/-- A scenario: the number `nR` of distinct relays and the list of pairs
(`scenario_data["pairs"]` after name-to-index resolution). -/
structure Scenario where
  nR : ℕ
  pairs : List Pair

/-- `relay_time(I, PU, TDS)` from `ga_optimization_fast.py` lines 204-212:
sentinel `MAX_TIME*10` when `I <= PU`, otherwise the IEC time clamped to
`[0, MAX_TIME*10]`.  The Python `try/except` around the arithmetic cannot
fire over the reals (the expression is total here), so it has no residue. -/
noncomputable def relay_time (I PU TDS : ℝ) : ℝ :=
  if I ≤ PU then MAX_TIME * 10
  else min (max (TDS * (K / ((I / PU) ^ N - 1))) 0) (MAX_TIME * 10)

/-- The penalty one pair contributes to the TMT sum in `fitness`
(lines 220-233): a CTI-violation term when `tB - tM < CTI` and a time-limit
term when `tM > MAX_TIME`. -/
noncomputable def pairPenalty (nR : ℕ) (ind : List ℝ) (p : Pair) : ℝ :=
  let tds := ind.take nR
  let pu := ind.drop nR
  let tM := relay_time p.Ishc_main (pu.getD p.main_relay 0) (tds.getD p.main_relay 0)
  let tB := relay_time p.Ishc_backup (pu.getD p.backup_relay 0) (tds.getD p.backup_relay 0)
  (if tB - tM < CTI then CTI - (tB - tM) else 0) +
  (if tM > MAX_TIME then tM - MAX_TIME else 0)

/-- `fitness(individual)` from lines 214-235: the loop accumulating `tmt`
over the scenario's pairs is the sum of the per-pair penalties. -/
noncomputable def fitness (sc : Scenario) (ind : List ℝ) : ℝ :=
  (sc.pairs.map (pairPenalty sc.nR ind)).sum

/-- The main-relay operating time the fitness function computes for a pair. -/
noncomputable def tMain (sc : Scenario) (ind : List ℝ) (p : Pair) : ℝ :=
  relay_time p.Ishc_main ((ind.drop sc.nR).getD p.main_relay 0)
    ((ind.take sc.nR).getD p.main_relay 0)

/-- The backup-relay operating time the fitness function computes for a pair. -/
noncomputable def tBackup (sc : Scenario) (ind : List ℝ) (p : Pair) : ℝ :=
  relay_time p.Ishc_backup ((ind.drop sc.nR).getD p.backup_relay 0)
    ((ind.take sc.nR).getD p.backup_relay 0)

/-- An individual: the gene vector (the first `Nv` slots of the source's
row) together with the cached fitness (the row's trailing slot). -/
structure Ind where
  genes : List ℝ
  fit : ℝ

instance : Inhabited Ind := ⟨⟨[], 0⟩⟩

/-- A population: the list `X` of individuals. -/
abbrev Pop := List Ind

/-- The sort key `lambda r: r[Nv]` — compare individuals by cached fitness. -/
noncomputable def leFit (a b : Ind) : Bool := decide (a.fit ≤ b.fit)

/-- `X.sort(key=lambda r: r[Nv])` — stable sort by fitness. -/
noncomputable def sortPop (X : Pop) : Pop := X.mergeSort leFit

/-- The population is in ascending fitness order. -/
def sortedByFit (X : Pop) : Prop := X.Pairwise (fun a b => a.fit ≤ b.fit)

/-- One individual of the initial population (line 240): gene `j` is
`xmin[j] + u_j * (xmax[j] - xmin[j])` with `u_j` the j-th uniform draw. -/
noncomputable def initInd (xmin xmax : List ℝ) (us : List ℝ) : List ℝ :=
  (List.range xmin.length).map
    (fun j => xmin.getD j 0 + us.getD j 0 * (xmax.getD j 0 - xmin.getD j 0))

/-- The initial population (lines 238-241), one row of uniform draws per
individual; each individual carries its computed fitness. -/
noncomputable def initPop (sc : Scenario) (xmin xmax : List ℝ)
    (uss : List (List ℝ)) : Pop :=
  uss.map (fun us => ⟨initInd xmin xmax us, fitness sc (initInd xmin xmax us)⟩)

/-- The random draws consumed by one generation: the two parent indices, the
crossover cut point, and for each child the mutated positions paired with
their fresh uniform draws. -/
structure Rand where
  s1 : ℕ
  s2 : ℕ
  cp : ℕ
  mut1 : List (ℕ × ℝ)
  mut2 : List (ℕ × ℝ)

/-- `mutate(child)` (lines 259-263): reset each sampled position `m` to
`xmin[m] + u * (xmax[m] - xmin[m])`. -/
noncomputable def mutate (xmin xmax : List ℝ) (ms : List (ℕ × ℝ))
    (child : List ℝ) : List ℝ :=
  ms.foldl (fun ch mu =>
    ch.set mu.1 (xmin.getD mu.1 0 + mu.2 * (xmax.getD mu.1 0 - xmin.getD mu.1 0))) child

/-- The duplicate test of lines 277-280: some existing individual has all
`Nv` genes within `1e-12` of the child's. -/
def isDup (Nv : ℕ) (child : List ℝ) (X : Pop) : Prop :=
  ∃ k < GA_Ni, ∀ j < Nv,
    |child.getD j 0 - (X.getD k default).genes.getD j 0| < 1e-12

/-- Selection, crossover, mutation and evaluation of one generation
(lines 252-273): returns the better of the two mutated children with its
fitness (`candidates.sort` is stable, so ties pick `H1`). -/
noncomputable def childOf (sc : Scenario) (xmin xmax : List ℝ) (r : Rand)
    (X : Pop) : List ℝ × ℝ :=
  let P1 := (X.getD r.s1 default).genes
  let P2 := (X.getD r.s2 default).genes
  let H1 := mutate xmin xmax r.mut1 (P1.take r.cp ++ P2.drop r.cp)
  let H2 := mutate xmin xmax r.mut2 (P2.take r.cp ++ P1.drop r.cp)
  let f1 := fitness sc H1
  let f2 := fitness sc H2
  if f2 < f1 then (H2, f2) else (H1, f1)

/-- The replacement gate of lines 275-281: the child bests the worst
individual (`X[-1]`) and is not a near-duplicate of any existing one. -/
def replGate (Nv : ℕ) (c : List ℝ × ℝ) (X : Pop) : Prop :=
  c.2 < (X.getLast?.getD default).fit ∧ ¬ isDup Nv c.1 X

open Classical in
/-- One generation of `ga_optimization_fast.py` (lines 250-284): if the gate
passes, `X[-1] = child + [fchild]`; the population is re-sorted either way
(line 284 sorts unconditionally). -/
noncomputable def genStep (sc : Scenario) (xmin xmax : List ℝ) (r : Rand)
    (X : Pop) : Pop :=
  let c := childOf sc xmin xmax r X
  if replGate xmin.length c X then sortPop (X.dropLast ++ [⟨c.1, c.2⟩])
  else sortPop X

/-- The best-solution / stall update of lines 286-291, executed every
generation in `ga_optimization_fast.py`. -/
noncomputable def updateBest (X : Pop) (best : Ind) (stall : ℕ) : Ind × ℕ :=
  if (X.headD default).fit < best.fit then (X.headD default, 0)
  else (best, stall + 1)

/-- One full generation of `ga_optimization_fast.py`: population step, then
the unconditional best/stall update. -/
noncomputable def gaStep (sc : Scenario) (xmin xmax : List ℝ) (r : Rand)
    (st : Pop × Ind × ℕ) : Pop × Ind × ℕ :=
  let X := genStep sc xmin xmax r st.1
  let bs := updateBest X st.2.1 st.2.2
  (X, bs.1, bs.2)

/-- A run of the evolution loop: fold the generation step over the realized
random draws (the loop's `break` conditions only shorten this list). -/
noncomputable def gaRun (sc : Scenario) (xmin xmax : List ℝ) (rs : List Rand)
    (st : Pop × Ind × ℕ) : Pop × Ind × ℕ :=
  rs.foldl (fun s r => gaStep sc xmin xmax r s) st

open Classical in
/-- One full generation of `optimize_all_scenarios.py` (lines 151-186): there
the re-sort and the best/stall update sit inside the replacement branch, so a
generation whose gate fails leaves population, best and stall all untouched. -/
noncomputable def gaStepAll (sc : Scenario) (xmin xmax : List ℝ) (r : Rand)
    (st : Pop × Ind × ℕ) : Pop × Ind × ℕ :=
  let c := childOf sc xmin xmax r st.1
  if replGate xmin.length c st.1 then
    let X2 := sortPop (st.1.dropLast ++ [⟨c.1, c.2⟩])
    let bs := updateBest X2 st.2.1 st.2.2
    (X2, bs.1, bs.2)
  else st

/-- The fault currents at which relay `i` appears across the scenario's pairs
(as main or backup), in pair order. -/
noncomputable def relayFaults (sc : Scenario) (i : ℕ) : List ℝ :=
  sc.pairs.foldr (fun p acc =>
    (if p.main_relay = i then [p.Ishc_main] else []) ++
    (if p.backup_relay = i then [p.Ishc_backup] else []) ++ acc) []

/-- `IscMin[i]` (lines 192-197): the source folds `min` starting from
`float("inf")`, which over the reals is the minimum of the occurrence list
whenever relay `i` appears in at least one pair — the only case the
algorithm uses.  For a relay with no occurrences the source keeps `inf`;
here the value degenerates to the list head default and the theorems exclude
that case by hypothesis. -/
noncomputable def IscMin (sc : Scenario) (i : ℕ) : ℝ :=
  (relayFaults sc i).foldr min (relayFaults sc i).headI

/-- `xmin` (line 200): `[MIN_TDS]*nR + [MIN_PICKUP]*nR`. -/
def xminOf (nR : ℕ) : List ℝ :=
  List.replicate nR MIN_TDS ++ List.replicate nR MIN_PICKUP

/-- `xmax` (line 201): `[MAX_TDS]*nR + [MAX_PICKUP_FACTOR*IscMin[i]]`. -/
noncomputable def xmaxOf (sc : Scenario) : List ℝ :=
  List.replicate sc.nR MAX_TDS ++
    (List.range sc.nR).map (fun i => MAX_PICKUP_FACTOR * IscMin sc i)

/-- `validate_scenario_data` (lines 157-176): a scenario with no pairs or no
relays is invalid outright; otherwise it must have at least 5 pairs and at
least 3 relays for the issue list to stay empty. -/
def validate_scenario_data (sc : Scenario) : Bool :=
  if sc.pairs.isEmpty then false
  else if sc.nR = 0 then false
  else decide (5 ≤ sc.pairs.length) && decide (3 ≤ sc.nR)

/-- The failure kinds of the optimization entry point (spec §7). -/
inductive GAError where
  | emptyScenario
deriving DecidableEq

/-- `round(x, 5)` on the extracted settings (Python rounds floats; ties are
modelled by Mathlib's `round`, which no claim depends on). -/
noncomputable def round5 (x : ℝ) : ℝ := round (x * 100000) / 100000

/-- `ResultExtractor` (lines 307-318): relay `i` gets `(TDS, pickup)` =
rounded `best[i]`, `best[nR+i]`. -/
noncomputable def extract (sc : Scenario) (best : Ind) : List (ℝ × ℝ) :=
  (List.range sc.nR).map (fun i =>
    (round5 ((best.genes.take sc.nR).getD i 0),
     round5 ((best.genes.drop sc.nR).getD i 0)))

/-- `genetic_algorithm_optimization` (lines 178-320): the `nR == 0` early
return (lines 184-186, `return {}` reported as a failure by the caller) is
modelled as the `EmptyScenario` error; otherwise initialize, run the
evolution loop over the realized draws, and extract the best individual. -/
noncomputable def genetic_algorithm_optimization (sc : Scenario)
    (uss : List (List ℝ)) (rs : List Rand) : Except GAError (List (ℝ × ℝ)) :=
  if sc.nR = 0 then .error .emptyScenario
  else
    let X0 := sortPop (initPop sc (xminOf sc.nR) (xmaxOf sc) uss)
    let final := gaRun sc (xminOf sc.nR) (xmaxOf sc) rs (X0, X0.headD default, 0)
    .ok (extract sc final.2.1)

lemma pairPenalty_eq (sc : Scenario) (ind : List ℝ) (p : Pair) :
    pairPenalty sc.nR ind p =
      (if tBackup sc ind p - tMain sc ind p < CTI
        then CTI - (tBackup sc ind p - tMain sc ind p) else 0) +
      (if tMain sc ind p > MAX_TIME then tMain sc ind p - MAX_TIME else 0) := by
  rfl

lemma pairPenalty_nonneg (sc : Scenario) (ind : List ℝ) (p : Pair) :
    0 ≤ pairPenalty sc.nR ind p := by
  rw [pairPenalty_eq]
  have h1 : (0:ℝ) ≤ if tBackup sc ind p - tMain sc ind p < CTI
      then CTI - (tBackup sc ind p - tMain sc ind p) else 0 := by
    split <;> linarith
  have h2 : (0:ℝ) ≤ if tMain sc ind p > MAX_TIME
      then tMain sc ind p - MAX_TIME else 0 := by
    split <;> linarith
  linarith

lemma pairPenalty_eq_zero_iff (sc : Scenario) (ind : List ℝ) (p : Pair) :
    pairPenalty sc.nR ind p = 0 ↔
      CTI ≤ tBackup sc ind p - tMain sc ind p ∧ tMain sc ind p ≤ MAX_TIME := by
  rw [pairPenalty_eq]
  constructor
  · intro h
    by_contra hcon
    rcases not_and_or.mp hcon with hc | hc
    · have hlt : tBackup sc ind p - tMain sc ind p < CTI := lt_of_not_le hc
      have h2 : (0:ℝ) ≤ if tMain sc ind p > MAX_TIME
          then tMain sc ind p - MAX_TIME else 0 := by split <;> linarith
      rw [if_pos hlt] at h
      linarith
    · have hlt : MAX_TIME < tMain sc ind p := lt_of_not_le hc
      have h1 : (0:ℝ) ≤ if tBackup sc ind p - tMain sc ind p < CTI
          then CTI - (tBackup sc ind p - tMain sc ind p) else 0 := by
        split <;> linarith
      rw [if_pos hlt] at h
      linarith
  · rintro ⟨h1, h2⟩
    rw [if_neg (by linarith), if_neg (by linarith)]
    norm_num

lemma sum_nonneg_list {l : List ℝ} (h : ∀ x ∈ l, 0 ≤ x) : 0 ≤ l.sum := by
  induction l with
  | nil => simp
  | cons a t ih =>
      simp only [List.sum_cons]
      have ha := h a (by simp)
      have ht := ih (fun x hx => h x (by simp [hx]))
      linarith

lemma sum_eq_zero_iff_list {l : List ℝ} (h : ∀ x ∈ l, 0 ≤ x) :
    l.sum = 0 ↔ ∀ x ∈ l, x = 0 := by
  induction l with
  | nil => simp
  | cons a t ih =>
      simp only [List.sum_cons, List.mem_cons]
      have ha := h a (by simp)
      have ht : ∀ x ∈ t, 0 ≤ x := fun x hx => h x (by simp [hx])
      have hts := sum_nonneg_list ht
      constructor
      · intro h0
        have haz : a = 0 := by linarith [sum_nonneg_list ht]
        have htz : t.sum = 0 := by linarith
        intro x hx
        rcases hx with rfl | hx
        · exact haz
        · exact ((ih ht).mp htz) x hx
      · intro hall
        have haz := hall a (Or.inl rfl)
        have htz := (ih ht).mpr (fun x hx => hall x (Or.inr hx))
        simp [haz, htz]

/-- C1: the TMT fitness is non-negative, and it is zero exactly when every
pair of the scenario is coordinated (`tB - tM ≥ CTI`) and within the time
limit (`tM ≤ MAX_TIME`). -/
theorem fitness_nonneg_and_zero_iff (sc : Scenario) (ind : List ℝ) :
    0 ≤ fitness sc ind ∧
      (fitness sc ind = 0 ↔
        ∀ p ∈ sc.pairs,
          CTI ≤ tBackup sc ind p - tMain sc ind p ∧ tMain sc ind p ≤ MAX_TIME) := by
  have hnn : ∀ x ∈ sc.pairs.map (pairPenalty sc.nR ind), 0 ≤ x := by
    intro x hx
    rcases List.mem_map.mp hx with ⟨p, _, rfl⟩
    exact pairPenalty_nonneg sc ind p
  constructor
  · exact sum_nonneg_list hnn
  · rw [fitness, sum_eq_zero_iff_list hnn]
    constructor
    · intro h p hp
      exact (pairPenalty_eq_zero_iff sc ind p).mp
        (h _ (List.mem_map.mpr ⟨p, hp, rfl⟩))
    · intro h x hx
      rcases List.mem_map.mp hx with ⟨p, hp, rfl⟩
      exact (pairPenalty_eq_zero_iff sc ind p).mpr (h p hp)

/-- C5: whenever the fault current does not exceed the pickup, the time model
returns exactly the sentinel `MAX_TIME * 10`. -/
theorem relay_time_sentinel (I PU TDS : ℝ) (hPU : 0 < PU) (hI : I ≤ PU) :
    relay_time I PU TDS = MAX_TIME * 10 := by
  rw [relay_time, if_pos hI]

/-- Witness for C5 at `I = 1`, `PU = 2`, `TDS = 0.3`. -/
theorem relay_time_sentinel_witness :
    relay_time 1 2 0.3 = MAX_TIME * 10 :=
  relay_time_sentinel 1 2 0.3 (by norm_num) (by norm_num)

/-- C6: the time model is total with range `[0, MAX_TIME*10]` (the sentinel
and the clamp make every call return a bounded value), and for valid inputs
`0 < PU < I` the IEC denominator `(I/PU)^N - 1` is strictly positive, so the
division in the non-sentinel branch is never by zero. -/
theorem relay_time_range_and_denom_pos :
    (∀ I PU TDS : ℝ, 0 ≤ relay_time I PU TDS ∧ relay_time I PU TDS ≤ MAX_TIME * 10) ∧
    (∀ I PU : ℝ, 0 < PU → PU < I → 0 < (I / PU) ^ N - 1) := by
  constructor
  · intro I PU TDS
    rw [relay_time]
    split
    · constructor <;> norm_num [MAX_TIME]
    · constructor
      · exact le_min (le_max_right _ _) (by norm_num [MAX_TIME])
      · exact min_le_right _ _
  · intro I PU hPU hlt
    have hx : 1 < I / PU := (one_lt_div hPU).mpr hlt
    have : 1 < (I / PU) ^ N := by
      rw [show (1:ℝ) < (I / PU) ^ N ↔ _ from Real.one_lt_rpow_iff_of_pos (by linarith)]
      exact Or.inl ⟨hx, by norm_num [N]⟩
    linarith

/-- Witness for C6 at `I = 2`, `PU = 1`, `TDS = 0.1`. -/
theorem relay_time_range_witness :
    (0 ≤ relay_time 2 1 0.1 ∧ relay_time 2 1 0.1 ≤ MAX_TIME * 10) ∧
      0 < ((2:ℝ) / 1) ^ N - 1 :=
  ⟨relay_time_range_and_denom_pos.1 2 1 0.1,
   relay_time_range_and_denom_pos.2 2 1 (by norm_num) (by norm_num)⟩

/-- C10: if some pair's main fault current does not exceed that relay's pickup
gene, the sentinel `tM = MAX_TIME*10` trips the time-limit penalty, so the
fitness is at least `MAX_TIME*10 - MAX_TIME` (= 90). -/
theorem fitness_ge_of_blind_main (sc : Scenario) (ind : List ℝ) (p : Pair)
    (hp : p ∈ sc.pairs)
    (hI : p.Ishc_main ≤ (ind.drop sc.nR).getD p.main_relay 0) :
    MAX_TIME * 10 - MAX_TIME ≤ fitness sc ind := by
  have htM : tMain sc ind p = MAX_TIME * 10 := by
    rw [tMain, relay_time, if_pos hI]
  have hpen : MAX_TIME * 10 - MAX_TIME ≤ pairPenalty sc.nR ind p := by
    rw [pairPenalty_eq, htM]
    have h1 : (0:ℝ) ≤ if tBackup sc ind p - MAX_TIME * 10 < CTI
        then CTI - (tBackup sc ind p - MAX_TIME * 10) else 0 := by
      split <;> linarith
    have hgt : MAX_TIME * 10 > MAX_TIME := by norm_num [MAX_TIME]
    rw [if_pos hgt]
    linarith
  have hmem : pairPenalty sc.nR ind p ∈ sc.pairs.map (pairPenalty sc.nR ind) :=
    List.mem_map.mpr ⟨p, hp, rfl⟩
  have hnn : ∀ x ∈ sc.pairs.map (pairPenalty sc.nR ind), 0 ≤ x := by
    intro x hx
    rcases List.mem_map.mp hx with ⟨q, _, rfl⟩
    exact pairPenalty_nonneg sc ind q
  have := List.single_le_sum hnn _ hmem
  rw [fitness]
  linarith

/-- A concrete one-pair scenario whose fault currents (`0.04`) sit below the
minimum pickup bound, used to exercise the sentinel branch. -/
def scBlind : Scenario := ⟨1, [⟨0, 0, 0.04, 0.04⟩]⟩

/-- A concrete candidate for `scBlind`: TDS `0.05`, pickup `0.05`. -/
def indBlind : List ℝ := [0.05, 0.05]

/-- Witness for C10 on `scBlind` and `indBlind`. -/
theorem fitness_ge_of_blind_main_witness :
    MAX_TIME * 10 - MAX_TIME ≤ fitness scBlind indBlind :=
  fitness_ge_of_blind_main scBlind indBlind ⟨0, 0, 0.04, 0.04⟩
    (by simp [scBlind])
    (by norm_num [scBlind, indBlind])

lemma leFit_trans : ∀ a b c : Ind, leFit a b → leFit b c → leFit a c := by
  intro a b c
  simp only [leFit, decide_eq_true_eq]
  exact le_trans

lemma leFit_total : ∀ a b : Ind, leFit a b || leFit b a := by
  intro a b
  simp only [leFit, Bool.or_eq_true, decide_eq_true_eq]
  exact le_total a.fit b.fit

lemma sortPop_sorted (X : Pop) : sortedByFit (sortPop X) := by
  have h := @List.sorted_mergeSort Ind leFit leFit_trans leFit_total X
  exact h.imp (fun hab => by simpa [leFit] using hab)

lemma sortPop_perm (X : Pop) : (sortPop X).Perm X :=
  List.mergeSort_perm X leFit

lemma sortPop_of_sorted {X : Pop} (h : sortedByFit X) : sortPop X = X :=
  List.mergeSort_of_sorted
    (h.imp (fun hab => by simp only [leFit, decide_eq_true_eq]; exact hab))

lemma length_sortPop (X : Pop) : (sortPop X).length = X.length :=
  List.length_mergeSort X

/-- C2: one generation replaces the worst individual (`X[-1]` of the sorted
population) with the better mutated child exactly when that child's fitness
beats the worst fitness and the child is not a near-duplicate of an existing
individual; in every other case the population is exactly unchanged, and its
size is `GA_Ni` either way. -/
theorem genStep_replacement (sc : Scenario) (xmin xmax : List ℝ) (r : Rand)
    (X : Pop) (hs : sortedByFit X) (hl : X.length = GA_Ni) :
    (genStep sc xmin xmax r X).length = GA_Ni ∧
    (¬ replGate xmin.length (childOf sc xmin xmax r X) X →
      genStep sc xmin xmax r X = X) ∧
    (replGate xmin.length (childOf sc xmin xmax r X) X →
      (genStep sc xmin xmax r X).Perm
        (X.dropLast ++ [⟨(childOf sc xmin xmax r X).1,
                         (childOf sc xmin xmax r X).2⟩]) ∧
      sortedByFit (genStep sc xmin xmax r X)) := by
  have hne : X ≠ [] := by
    intro h
    rw [h] at hl
    simp [GA_Ni] at hl
  refine ⟨?_, ?_, ?_⟩
  · rw [genStep]
    split
    · rw [length_sortPop, List.length_append, List.length_dropLast, hl]
      have : 0 < GA_Ni := by norm_num [GA_Ni]
      simp
      omega
    · rw [length_sortPop, hl]
  · intro hgate
    rw [genStep, if_neg hgate]
    exact sortPop_of_sorted hs
  · intro hgate
    rw [genStep, if_pos hgate]
    exact ⟨sortPop_perm _, sortPop_sorted _⟩

/-- A concrete individual used by the witnesses: genes at the lower bounds of
`scBlind`, with the fitness value `90.2` that `fitness scBlind` assigns it. -/
def indBlindI : Ind := ⟨[0.05, 0.05], 90.2⟩

/-- A concrete sorted population of size `GA_Ni`. -/
def popBlind : Pop := List.replicate GA_Ni indBlindI

lemma popBlind_sorted : sortedByFit popBlind := by
  rw [sortedByFit, popBlind, List.pairwise_replicate]
  exact Or.inr le_rfl

lemma popBlind_length : popBlind.length = GA_Ni := by
  simp [popBlind]

/-- Witness for C2 on the concrete population `popBlind`. -/
theorem genStep_replacement_witness :
    (genStep scBlind (xminOf 1) (xmaxOf scBlind) ⟨0, 1, 1, [], []⟩
        popBlind).length = GA_Ni ∧
    (¬ replGate (xminOf 1).length
        (childOf scBlind (xminOf 1) (xmaxOf scBlind) ⟨0, 1, 1, [], []⟩ popBlind)
        popBlind →
      genStep scBlind (xminOf 1) (xmaxOf scBlind) ⟨0, 1, 1, [], []⟩ popBlind =
        popBlind) ∧
    (replGate (xminOf 1).length
        (childOf scBlind (xminOf 1) (xmaxOf scBlind) ⟨0, 1, 1, [], []⟩ popBlind)
        popBlind →
      (genStep scBlind (xminOf 1) (xmaxOf scBlind) ⟨0, 1, 1, [], []⟩
          popBlind).Perm
        (popBlind.dropLast ++
          [⟨(childOf scBlind (xminOf 1) (xmaxOf scBlind) ⟨0, 1, 1, [], []⟩
              popBlind).1,
            (childOf scBlind (xminOf 1) (xmaxOf scBlind) ⟨0, 1, 1, [], []⟩
              popBlind).2⟩]) ∧
      sortedByFit (genStep scBlind (xminOf 1) (xmaxOf scBlind) ⟨0, 1, 1, [], []⟩
          popBlind)) :=
  genStep_replacement scBlind (xminOf 1) (xmaxOf scBlind) ⟨0, 1, 1, [], []⟩
    popBlind popBlind_sorted popBlind_length

lemma updateBest_cases (X : Pop) (b : Ind) (s : ℕ) :
    ((X.headD default).fit < b.fit ∧ updateBest X b s = (X.headD default, 0)) ∨
    (¬ (X.headD default).fit < b.fit ∧ updateBest X b s = (b, s + 1)) := by
  rw [updateBest]
  split
  · exact Or.inl ⟨by assumption, rfl⟩
  · exact Or.inr ⟨by assumption, rfl⟩

lemma gaStep_eq (sc : Scenario) (xmin xmax : List ℝ) (r : Rand)
    (st : Pop × Ind × ℕ) :
    gaStep sc xmin xmax r st =
      (genStep sc xmin xmax r st.1,
       (updateBest (genStep sc xmin xmax r st.1) st.2.1 st.2.2).1,
       (updateBest (genStep sc xmin xmax r st.1) st.2.1 st.2.2).2) := rfl

lemma gaStep_best_fit_le (sc : Scenario) (xmin xmax : List ℝ) (r : Rand)
    (st : Pop × Ind × ℕ) :
    (gaStep sc xmin xmax r st).2.1.fit ≤ st.2.1.fit := by
  rw [gaStep_eq]
  rcases updateBest_cases (genStep sc xmin xmax r st.1) st.2.1 st.2.2 with
    ⟨hlt, heq⟩ | ⟨hge, heq⟩
  · simp only [heq]
    exact le_of_lt hlt
  · simp only [heq]
    exact le_refl _

/-- C3: the best-known solution's fitness never increases: in one generation
it either stays or is replaced by the sorted population's head, and only when
that head's fitness is strictly lower; consequently it is non-increasing over
any whole run; the same monotonicity holds for the
`optimize_all_scenarios.py` generation step. -/
theorem best_fitness_nonincreasing (sc : Scenario) (xmin xmax : List ℝ) :
    (∀ (r : Rand) (st : Pop × Ind × ℕ),
      (gaStep sc xmin xmax r st).2.1.fit ≤ st.2.1.fit ∧
      ((gaStep sc xmin xmax r st).2.1 = st.2.1 ∨
        ((gaStep sc xmin xmax r st).2.1 =
            (genStep sc xmin xmax r st.1).headD default ∧
          ((genStep sc xmin xmax r st.1).headD default).fit < st.2.1.fit))) ∧
    (∀ (rs : List Rand) (st : Pop × Ind × ℕ),
      (gaRun sc xmin xmax rs st).2.1.fit ≤ st.2.1.fit) ∧
    (∀ (r : Rand) (st : Pop × Ind × ℕ),
      (gaStepAll sc xmin xmax r st).2.1.fit ≤ st.2.1.fit) := by
  refine ⟨?_, ?_, ?_⟩
  · intro r st
    refine ⟨gaStep_best_fit_le sc xmin xmax r st, ?_⟩
    rw [gaStep_eq]
    rcases updateBest_cases (genStep sc xmin xmax r st.1) st.2.1 st.2.2 with
      ⟨hlt, heq⟩ | ⟨hge, heq⟩
    · exact Or.inr ⟨by simp only [heq], hlt⟩
    · exact Or.inl (by simp only [heq])
  · intro rs
    induction rs with
    | nil => intro st; exact le_refl _
    | cons r rs ih =>
        intro st
        have h1 := gaStep_best_fit_le sc xmin xmax r st
        have h2 := ih (gaStep sc xmin xmax r st)
        calc (gaRun sc xmin xmax (r :: rs) st).2.1.fit
            = (gaRun sc xmin xmax rs (gaStep sc xmin xmax r st)).2.1.fit := rfl
          _ ≤ (gaStep sc xmin xmax r st).2.1.fit := h2
          _ ≤ st.2.1.fit := h1
  · intro r st
    rw [gaStepAll]
    split
    · rcases updateBest_cases
        (sortPop (st.1.dropLast ++
          [⟨(childOf sc xmin xmax r st.1).1, (childOf sc xmin xmax r st.1).2⟩]))
        st.2.1 st.2.2 with ⟨hlt, heq⟩ | ⟨hge, heq⟩
      · simp only [heq]
        exact le_of_lt hlt
      · simp only [heq]
        exact le_refl _
    · exact le_refl _

/-- C7 (amended): in `ga_optimization_fast.py` the stall counter is updated
every generation — reset to 0 exactly when the sorted population's head
strictly improves on the best solution, and incremented by 1 otherwise; in
`optimize_all_scenarios.py`, however, a generation whose replacement gate
fails leaves best and stall completely untouched. -/
theorem stall_update_per_variant (sc : Scenario) (xmin xmax : List ℝ)
    (r : Rand) (st : Pop × Ind × ℕ) :
    ((gaStep sc xmin xmax r st).2.2 = 0 ∨
      (gaStep sc xmin xmax r st).2.2 = st.2.2 + 1) ∧
    ((gaStep sc xmin xmax r st).2.2 = 0 ↔
      ((genStep sc xmin xmax r st.1).headD default).fit < st.2.1.fit) ∧
    (¬ replGate xmin.length (childOf sc xmin xmax r st.1) st.1 →
      gaStepAll sc xmin xmax r st = st) := by
  refine ⟨?_, ?_, ?_⟩
  · rw [gaStep_eq]
    rcases updateBest_cases (genStep sc xmin xmax r st.1) st.2.1 st.2.2 with
      ⟨_, heq⟩ | ⟨_, heq⟩
    · exact Or.inl (by simp only [heq])
    · exact Or.inr (by simp only [heq])
  · rw [gaStep_eq]
    rcases updateBest_cases (genStep sc xmin xmax r st.1) st.2.1 st.2.2 with
      ⟨hlt, heq⟩ | ⟨hge, heq⟩
    · simp only [heq]
      exact iff_of_true trivial hlt
    · simp only [heq]
      exact iff_of_false (by omega) hge
  · intro hgate
    rw [gaStepAll, if_neg hgate]

/-- A concrete generation's draws: both parents at index 0, cut point 1, and
both children re-drawing genes 0 and 1 with the uniform draw `u = 0`. -/
def randBlind : Rand := ⟨0, 0, 1, [(0, 0), (1, 0)], [(0, 0), (1, 0)]⟩

lemma popBlind_getD_zero : popBlind.getD 0 default = indBlindI := rfl

lemma popBlind_headD : popBlind.headD default = indBlindI := rfl

lemma childOf_blind_eq :
    childOf scBlind (xminOf 1) (xmaxOf scBlind) randBlind popBlind =
      (mutate (xminOf 1) (xmaxOf scBlind) randBlind.mut1
         (indBlindI.genes.take 1 ++ indBlindI.genes.drop 1),
       fitness scBlind
         (mutate (xminOf 1) (xmaxOf scBlind) randBlind.mut1
           (indBlindI.genes.take 1 ++ indBlindI.genes.drop 1))) := by
  show (let P1 := (popBlind.getD randBlind.s1 default).genes
        let P2 := (popBlind.getD randBlind.s2 default).genes
        let H1 := mutate (xminOf 1) (xmaxOf scBlind) randBlind.mut1
          (P1.take randBlind.cp ++ P2.drop randBlind.cp)
        let H2 := mutate (xminOf 1) (xmaxOf scBlind) randBlind.mut2
          (P2.take randBlind.cp ++ P1.drop randBlind.cp)
        let f1 := fitness scBlind H1
        let f2 := fitness scBlind H2
        if f2 < f1 then (H2, f2) else (H1, f1)) = _
  simp only [randBlind, popBlind_getD_zero]
  rw [if_neg (lt_irrefl _)]

lemma childBlind_genes :
    (childOf scBlind (xminOf 1) (xmaxOf scBlind) randBlind popBlind).1 =
      [MIN_TDS, MIN_PICKUP] := by
  rw [childOf_blind_eq]
  show mutate (xminOf 1) (xmaxOf scBlind) [(0, 0), (1, 0)]
      (indBlindI.genes.take 1 ++ indBlindI.genes.drop 1) = _
  simp only [indBlindI, mutate, xminOf, List.foldl, List.take, List.drop]
  norm_num

lemma xminOf_one_length : (xminOf 1).length = 2 := by
  simp [xminOf]

lemma isDup_blind :
    isDup (xminOf 1).length
      (childOf scBlind (xminOf 1) (xmaxOf scBlind) randBlind popBlind).1
      popBlind := by
  refine ⟨0, by norm_num [GA_Ni], ?_⟩
  intro j hj
  rw [childBlind_genes, popBlind_getD_zero, xminOf_one_length] at *
  interval_cases j <;>
    norm_num [indBlindI, MIN_TDS, MIN_PICKUP]

lemma not_replGate_blind :
    ¬ replGate (xminOf 1).length
      (childOf scBlind (xminOf 1) (xmaxOf scBlind) randBlind popBlind)
      popBlind := by
  rintro ⟨_, hnd⟩
  exact hnd isDup_blind

/-- Witness for C7's amended statement: on the concrete no-replacement
generation, `gaStepAll` leaves the whole state untouched. -/
theorem stall_update_per_variant_witness :
    gaStepAll scBlind (xminOf 1) (xmaxOf scBlind) randBlind
      (popBlind, indBlindI, 5) = (popBlind, indBlindI, 5) :=
  (stall_update_per_variant scBlind (xminOf 1) (xmaxOf scBlind) randBlind
    (popBlind, indBlindI, 5)).2.2 not_replGate_blind

/-- Counterexample to C7 as stated: in `optimize_all_scenarios.py` the stall
counter is NOT updated every generation.  Here the population's best slot
does not improve on the best solution, so the claim demands the counter be
incremented from 5 to 6, yet the step leaves it at 5 (nothing inside the
failed replacement gate runs). -/
theorem stall_update_counterexample :
    ¬ ((popBlind.headD default).fit < indBlindI.fit) ∧
    (gaStepAll scBlind (xminOf 1) (xmaxOf scBlind) randBlind
      (popBlind, indBlindI, 5)).2.2 = 5 := by
  constructor
  · rw [popBlind_headD]
    exact lt_irrefl _
  · rw [gaStepAll, if_neg not_replGate_blind]

/-- Gene vector `g` lies within the per-gene intervals `[xmin[j], xmax[j]]`. -/
def inBounds (xmin xmax g : List ℝ) : Prop :=
  g.length = xmin.length ∧
  ∀ j < xmin.length, xmin.getD j 0 ≤ g.getD j 0 ∧ g.getD j 0 ≤ xmax.getD j 0

/-- Every individual of the population has its genes within bounds. -/
def popInBounds (xmin xmax : List ℝ) (X : Pop) : Prop :=
  ∀ ind ∈ X, inBounds xmin xmax ind.genes

/-- Well-formedness of one generation's random draws: `random.sample` yields
parent indices below `GA_Ni`, and `random.random()` yields draws in `[0,1)`
(closed at 1 here, harmlessly weaker). -/
def RandOK (r : Rand) : Prop :=
  r.s1 < GA_Ni ∧ r.s2 < GA_Ni ∧
  (∀ mu ∈ r.mut1, 0 ≤ mu.2 ∧ mu.2 ≤ 1) ∧
  (∀ mu ∈ r.mut2, 0 ≤ mu.2 ∧ mu.2 ≤ 1)

lemma getD_of_lt {α : Type} {l : List α} {j : ℕ} {d : α} (h : j < l.length) :
    l.getD j d = l[j] := by
  rw [List.getD_eq_getElem?_getD, List.getElem?_eq_getElem h]
  rfl

lemma unit_getD_range {us : List ℝ} (hu : ∀ u ∈ us, 0 ≤ u ∧ u ≤ 1) (j : ℕ) :
    0 ≤ us.getD j 0 ∧ us.getD j 0 ≤ 1 := by
  by_cases h : j < us.length
  · rw [getD_of_lt h]
    exact hu _ (List.getElem_mem h)
  · rw [List.getD_eq_getElem?_getD, List.getElem?_eq_none (by omega)]
    norm_num

lemma interp_mem {lo hi u : ℝ} (hle : lo ≤ hi) (h0 : 0 ≤ u) (h1 : u ≤ 1) :
    lo ≤ lo + u * (hi - lo) ∧ lo + u * (hi - lo) ≤ hi := by
  constructor
  · nlinarith
  · nlinarith

lemma initInd_inBounds {xmin xmax : List ℝ}
    (hmm : ∀ j < xmin.length, xmin.getD j 0 ≤ xmax.getD j 0)
    {us : List ℝ} (hu : ∀ u ∈ us, 0 ≤ u ∧ u ≤ 1) :
    inBounds xmin xmax (initInd xmin xmax us) := by
  refine ⟨by simp [initInd], ?_⟩
  intro j hj
  have hval : (initInd xmin xmax us).getD j 0 =
      xmin.getD j 0 + us.getD j 0 * (xmax.getD j 0 - xmin.getD j 0) := by
    rw [initInd, getD_of_lt (by simpa using hj)]
    simp [hj]
  rw [hval]
  exact interp_mem (hmm j hj) (unit_getD_range hu j).1 (unit_getD_range hu j).2

lemma getD_crossover {A B : List ℝ} {cp j : ℕ} (hA : j < A.length)
    (hB : j < B.length) :
    (A.take cp ++ B.drop cp).getD j 0 =
      if j < cp then A.getD j 0 else B.getD j 0 := by
  rw [List.getD_eq_getElem?_getD, List.getElem?_append, List.length_take]
  by_cases h : j < cp
  · rw [if_pos (by omega), if_pos h, List.getElem?_take, if_pos h,
      List.getD_eq_getElem?_getD]
  · rw [if_neg (by omega), if_neg h, List.getElem?_drop,
      List.getD_eq_getElem?_getD]
    congr 2
    omega

lemma crossover_inBounds {xmin xmax A B : List ℝ} (hA : inBounds xmin xmax A)
    (hB : inBounds xmin xmax B) (cp : ℕ) :
    inBounds xmin xmax (A.take cp ++ B.drop cp) := by
  obtain ⟨hAl, hAb⟩ := hA
  obtain ⟨hBl, hBb⟩ := hB
  constructor
  · rw [List.length_append, List.length_take, List.length_drop, hAl, hBl]
    omega
  · intro j hj
    rw [getD_crossover (by omega) (by omega)]
    split
    · exact hAb j hj
    · exact hBb j hj

lemma set_gene_inBounds {xmin xmax : List ℝ}
    (hmm : ∀ j < xmin.length, xmin.getD j 0 ≤ xmax.getD j 0)
    {g : List ℝ} (hg : inBounds xmin xmax g) (m : ℕ) {u : ℝ}
    (h0 : 0 ≤ u) (h1 : u ≤ 1) :
    inBounds xmin xmax
      (g.set m (xmin.getD m 0 + u * (xmax.getD m 0 - xmin.getD m 0))) := by
  obtain ⟨hl, hb⟩ := hg
  refine ⟨by simp [hl], ?_⟩
  intro j hj
  have hset : ∀ (gl : List ℝ) (i k : ℕ) (v : ℝ), k < gl.length →
      (gl.set i v).getD k 0 = if i = k then v else gl.getD k 0 := by
    intro gl i k v hk
    by_cases hik : i = k
    · subst hik
      rw [if_pos rfl, List.getD_eq_getElem?_getD, List.getElem?_set_self hk]
      rfl
    · rw [if_neg hik, List.getD_eq_getElem?_getD, List.getElem?_set_ne hik,
        ← List.getD_eq_getElem?_getD]
  rw [hset g m j _ (by omega)]
  by_cases hjm : m = j
  · subst hjm
    rw [if_pos rfl]
    exact interp_mem (hmm m hj) h0 h1
  · rw [if_neg hjm]
    exact hb j hj

lemma mutate_inBounds {xmin xmax : List ℝ}
    (hmm : ∀ j < xmin.length, xmin.getD j 0 ≤ xmax.getD j 0)
    {ms : List (ℕ × ℝ)} (hm : ∀ mu ∈ ms, 0 ≤ mu.2 ∧ mu.2 ≤ 1)
    {g : List ℝ} (hg : inBounds xmin xmax g) :
    inBounds xmin xmax (mutate xmin xmax ms g) := by
  induction ms generalizing g with
  | nil => simpa [mutate] using hg
  | cons mu ms ih =>
      have hstep := set_gene_inBounds hmm hg mu.1
        (hm mu (by simp)).1 (hm mu (by simp)).2
      have hrest : ∀ nu ∈ ms, 0 ≤ nu.2 ∧ nu.2 ≤ 1 :=
        fun nu hnu => hm nu (List.mem_cons_of_mem _ hnu)
      simpa [mutate, List.foldl_cons] using ih hrest hstep

lemma getD_mem_of_lt {X : Pop} {k : ℕ} (h : k < X.length) :
    X.getD k default ∈ X := by
  rw [getD_of_lt h]
  exact List.getElem_mem h

lemma childOf_inBounds {sc : Scenario} {xmin xmax : List ℝ} {r : Rand} {X : Pop}
    (hmm : ∀ j < xmin.length, xmin.getD j 0 ≤ xmax.getD j 0)
    (hX : popInBounds xmin xmax X) (hl : X.length = GA_Ni) (hr : RandOK r) :
    inBounds xmin xmax (childOf sc xmin xmax r X).1 := by
  obtain ⟨hs1, hs2, hm1, hm2⟩ := hr
  have hp1 : inBounds xmin xmax (X.getD r.s1 default).genes :=
    hX _ (getD_mem_of_lt (by omega))
  have hp2 : inBounds xmin xmax (X.getD r.s2 default).genes :=
    hX _ (getD_mem_of_lt (by omega))
  rw [childOf]
  split
  · exact mutate_inBounds hmm hm2 (crossover_inBounds hp2 hp1 r.cp)
  · exact mutate_inBounds hmm hm1 (crossover_inBounds hp1 hp2 r.cp)

lemma genStep_length {sc : Scenario} {xmin xmax : List ℝ} {r : Rand} {X : Pop}
    (hl : X.length = GA_Ni) :
    (genStep sc xmin xmax r X).length = GA_Ni := by
  rw [genStep]
  split
  · rw [length_sortPop, List.length_append, List.length_dropLast, hl]
    simp [GA_Ni]
  · rw [length_sortPop, hl]

lemma genStep_popInBounds {sc : Scenario} {xmin xmax : List ℝ} {r : Rand}
    {X : Pop} (hmm : ∀ j < xmin.length, xmin.getD j 0 ≤ xmax.getD j 0)
    (hX : popInBounds xmin xmax X) (hl : X.length = GA_Ni) (hr : RandOK r) :
    popInBounds xmin xmax (genStep sc xmin xmax r X) := by
  rw [genStep]
  split
  · intro ind hind
    have hmem : ind ∈ X.dropLast ++
        [⟨(childOf sc xmin xmax r X).1, (childOf sc xmin xmax r X).2⟩] :=
      (sortPop_perm _).mem_iff.mp hind
    rcases List.mem_append.mp hmem with h | h
    · exact hX ind ((List.dropLast_sublist X).mem h)
    · rcases List.mem_singleton.mp h with rfl
      exact childOf_inBounds hmm hX hl hr
  · intro ind hind
    exact hX ind ((sortPop_perm X).mem_iff.mp hind)

lemma gaRun_popInBounds (sc : Scenario) {xmin xmax : List ℝ}
    (hmm : ∀ j < xmin.length, xmin.getD j 0 ≤ xmax.getD j 0)
    (rs : List Rand) (hrs : ∀ r ∈ rs, RandOK r) :
    ∀ st : Pop × Ind × ℕ, popInBounds xmin xmax st.1 → st.1.length = GA_Ni →
      popInBounds xmin xmax (gaRun sc xmin xmax rs st).1 ∧
        (gaRun sc xmin xmax rs st).1.length = GA_Ni := by
  induction rs with
  | nil => intro st h1 h2; exact ⟨h1, h2⟩
  | cons r rs ih =>
      intro st h1 h2
      have hr := hrs r (by simp)
      have h1' : popInBounds xmin xmax (gaStep sc xmin xmax r st).1 :=
        genStep_popInBounds hmm h1 h2 hr
      have h2' : (gaStep sc xmin xmax r st).1.length = GA_Ni :=
        genStep_length h2
      exact ih (fun q hq => hrs q (by simp [hq])) (gaStep sc xmin xmax r st) h1' h2'

lemma xminOf_length (nR : ℕ) : (xminOf nR).length = 2 * nR := by
  simp [xminOf]
  omega

lemma xmaxOf_length (sc : Scenario) : (xmaxOf sc).length = 2 * sc.nR := by
  simp [xmaxOf]
  omega

lemma xminOf_getD_tds {nR j : ℕ} (hj : j < nR) :
    (xminOf nR).getD j 0 = MIN_TDS := by
  rw [xminOf, List.getD_eq_getElem?_getD,
    List.getElem?_append_left (by simpa using hj),
    List.getElem?_replicate_of_lt hj]
  rfl

lemma xminOf_getD_pu {nR i : ℕ} (hi : i < nR) :
    (xminOf nR).getD (nR + i) 0 = MIN_PICKUP := by
  rw [xminOf, List.getD_eq_getElem?_getD,
    List.getElem?_append_right (by simp)]
  simp [hi]

lemma xmaxOf_getD_tds {sc : Scenario} {j : ℕ} (hj : j < sc.nR) :
    (xmaxOf sc).getD j 0 = MAX_TDS := by
  rw [xmaxOf, List.getD_eq_getElem?_getD,
    List.getElem?_append_left (by simpa using hj),
    List.getElem?_replicate_of_lt hj]
  rfl

lemma xmaxOf_getD_pu {sc : Scenario} {i : ℕ} (hi : i < sc.nR) :
    (xmaxOf sc).getD (sc.nR + i) 0 = MAX_PICKUP_FACTOR * IscMin sc i := by
  rw [xmaxOf, List.getD_eq_getElem?_getD,
    List.getElem?_append_right (by simp)]
  simp [hi]

lemma derived_bounds_le (sc : Scenario)
    (hpk : ∀ i < sc.nR, MIN_PICKUP ≤ MAX_PICKUP_FACTOR * IscMin sc i) :
    ∀ j < (xminOf sc.nR).length,
      (xminOf sc.nR).getD j 0 ≤ (xmaxOf sc).getD j 0 := by
  intro j hj
  rw [xminOf_length] at hj
  by_cases h : j < sc.nR
  · rw [xminOf_getD_tds h, xmaxOf_getD_tds h]
    norm_num [MIN_TDS, MAX_TDS]
  · have hsplit : j = sc.nR + (j - sc.nR) := by omega
    rw [hsplit, xminOf_getD_pu (by omega), xmaxOf_getD_pu (by omega)]
    exact hpk _ (by omega)

lemma initPop_inBounds {sc : Scenario} {xmin xmax : List ℝ}
    (hmm : ∀ j < xmin.length, xmin.getD j 0 ≤ xmax.getD j 0)
    {uss : List (List ℝ)} (hus : ∀ us ∈ uss, ∀ u ∈ us, 0 ≤ u ∧ u ≤ 1) :
    popInBounds xmin xmax (initPop sc xmin xmax uss) := by
  intro ind hind
  rcases List.mem_map.mp hind with ⟨us, hus', rfl⟩
  exact initInd_inBounds hmm (hus us hus')

/-- C4: on a non-degenerate scenario (each derived pickup ceiling at least
`MIN_PICKUP`), every gene of every individual stays within its relay's
derived bounds at every generation: TDS genes in `[MIN_TDS, MAX_TDS]` and
pickup genes in `[MIN_PICKUP, MAX_PICKUP_FACTOR * IscMin]`, from the sorted
initial population through any number of generation steps. -/
theorem genes_always_in_bounds (sc : Scenario)
    (hpk : ∀ i < sc.nR, MIN_PICKUP ≤ MAX_PICKUP_FACTOR * IscMin sc i)
    (uss : List (List ℝ)) (hus : ∀ us ∈ uss, ∀ u ∈ us, 0 ≤ u ∧ u ≤ 1)
    (hN : uss.length = GA_Ni)
    (rs : List Rand) (hrs : ∀ r ∈ rs, RandOK r) (best : Ind) (stall : ℕ) :
    popInBounds (xminOf sc.nR) (xmaxOf sc)
      (sortPop (initPop sc (xminOf sc.nR) (xmaxOf sc) uss)) ∧
    ∀ ind ∈ (gaRun sc (xminOf sc.nR) (xmaxOf sc) rs
        (sortPop (initPop sc (xminOf sc.nR) (xmaxOf sc) uss), best, stall)).1,
      ind.genes.length = 2 * sc.nR ∧
      ∀ i < sc.nR,
        (MIN_TDS ≤ ind.genes.getD i 0 ∧ ind.genes.getD i 0 ≤ MAX_TDS) ∧
        (MIN_PICKUP ≤ ind.genes.getD (sc.nR + i) 0 ∧
          ind.genes.getD (sc.nR + i) 0 ≤ MAX_PICKUP_FACTOR * IscMin sc i) := by
  have hmm := derived_bounds_le sc hpk
  have hinit : popInBounds (xminOf sc.nR) (xmaxOf sc)
      (sortPop (initPop sc (xminOf sc.nR) (xmaxOf sc) uss)) := by
    intro ind hind
    exact initPop_inBounds hmm hus ind ((sortPop_perm _).mem_iff.mp hind)
  have hlen : (sortPop (initPop sc (xminOf sc.nR) (xmaxOf sc) uss)).length
      = GA_Ni := by
    rw [length_sortPop, initPop, List.length_map, hN]
  refine ⟨hinit, ?_⟩
  have hrun := gaRun_popInBounds sc hmm rs hrs
    (sortPop (initPop sc (xminOf sc.nR) (xmaxOf sc) uss), best, stall)
    hinit hlen
  intro ind hind
  obtain ⟨hglen, hb⟩ := hrun.1 ind hind
  refine ⟨by rw [hglen, xminOf_length], ?_⟩
  intro i hi
  have h1 := hb i (by rw [xminOf_length]; omega)
  have h2 := hb (sc.nR + i) (by rw [xminOf_length]; omega)
  rw [xminOf_getD_tds hi, xmaxOf_getD_tds hi] at h1
  rw [xminOf_getD_pu hi, xmaxOf_getD_pu hi] at h2
  exact ⟨h1, h2⟩

/-- A concrete non-degenerate one-pair scenario (fault currents `1`). -/
def scGood : Scenario := ⟨1, [⟨0, 0, 1, 1⟩]⟩

lemma IscMin_scGood : IscMin scGood 0 = 1 := by
  rw [IscMin, relayFaults, scGood]
  norm_num

/-- Witness for C4 on `scGood` with all uniform draws `0` and one
well-formed generation. -/
theorem genes_always_in_bounds_witness :
    popInBounds (xminOf scGood.nR) (xmaxOf scGood)
      (sortPop (initPop scGood (xminOf scGood.nR) (xmaxOf scGood)
        (List.replicate GA_Ni [0, 0]))) ∧
    ∀ ind ∈ (gaRun scGood (xminOf scGood.nR) (xmaxOf scGood) [randBlind]
        (sortPop (initPop scGood (xminOf scGood.nR) (xmaxOf scGood)
          (List.replicate GA_Ni [0, 0])), default, 0)).1,
      ind.genes.length = 2 * scGood.nR ∧
      ∀ i < scGood.nR,
        (MIN_TDS ≤ ind.genes.getD i 0 ∧ ind.genes.getD i 0 ≤ MAX_TDS) ∧
        (MIN_PICKUP ≤ ind.genes.getD (scGood.nR + i) 0 ∧
          ind.genes.getD (scGood.nR + i) 0 ≤ MAX_PICKUP_FACTOR * IscMin scGood i) :=
  genes_always_in_bounds scGood
    (by
      intro i hi
      have h1 : i = 0 := by simpa [scGood] using hi
      subst h1
      rw [IscMin_scGood]
      norm_num [MIN_PICKUP, MAX_PICKUP_FACTOR])
    (List.replicate GA_Ni [0, 0])
    (by
      intro us hus u hu
      rw [List.eq_of_mem_replicate hus] at hu
      simp only [List.mem_cons, List.not_mem_nil, or_false] at hu
      rcases hu with rfl | rfl <;> norm_num)
    (by simp)
    [randBlind]
    (by
      intro r hr
      rw [List.mem_singleton.mp hr]
      refine ⟨by norm_num [randBlind, GA_Ni], by norm_num [randBlind, GA_Ni], ?_, ?_⟩ <;>
        (intro mu hmu
         simp only [randBlind, List.mem_cons, List.not_mem_nil, or_false] at hmu
         rcases hmu with rfl | rfl <;> norm_num))
    default 0

/-- C8: a scenario with zero relays makes the optimization entry point fail
with `EmptyScenario`; the result is the same constant for every random
stream, so no population is initialized and no generation step runs, and no
settings mapping is produced.  A scenario with zero valid pairs is already
rejected by `validate_scenario_data`, so the caller skips it before ever
invoking the search. -/
theorem empty_scenario_fails (sc : Scenario) (uss : List (List ℝ))
    (rs : List Rand) (h : sc.nR = 0) :
    genetic_algorithm_optimization sc uss rs =
      Except.error GAError.emptyScenario ∧
    (sc.pairs = [] → validate_scenario_data sc = false) := by
  constructor
  · rw [genetic_algorithm_optimization, if_pos h]
  · intro hp
    rw [validate_scenario_data, if_pos (by simp [hp])]

/-- Witness for C8 on the empty scenario. -/
theorem empty_scenario_fails_witness :
    genetic_algorithm_optimization ⟨0, []⟩ [] [] =
      Except.error GAError.emptyScenario ∧
    ((⟨0, []⟩ : Scenario).pairs = [] →
      validate_scenario_data ⟨0, []⟩ = false) :=
  empty_scenario_fails ⟨0, []⟩ [] [] rfl

/-- Two individuals whose genes all lie within `1e-12` of each other (the
relation of the source's duplicate test, between two population members). -/
def nearDup (Nv : ℕ) (a b : Ind) : Prop :=
  ∀ j < Nv, |a.genes.getD j 0 - b.genes.getD j 0| < 1e-12

/-- The property C9 claims of the final population: no two distinct
individuals are near-duplicates of each other. -/
def noNearDups (Nv : ℕ) (X : Pop) : Prop :=
  X.Pairwise (fun a b => ¬ nearDup Nv a b)

lemma nearDup_symm {Nv : ℕ} {a b : Ind} (h : nearDup Nv a b) :
    nearDup Nv b a := by
  intro j hj
  rw [abs_sub_comm]
  exact h j hj

lemma not_nearDup_symm : ∀ {a b : Ind}, (fun a b => ¬ nearDup Nv a b) a b →
    (fun a b => ¬ nearDup Nv a b) b a :=
  fun h hba => h (nearDup_symm hba)

lemma genStep_noNearDups {sc : Scenario} {xmin xmax : List ℝ} {r : Rand}
    {X : Pop} (hl : X.length = GA_Ni) (h : noNearDups xmin.length X) :
    noNearDups xmin.length (genStep sc xmin xmax r X) := by
  rw [genStep]
  split
  · rename_i hgate
    have hnd : ¬ isDup xmin.length (childOf sc xmin xmax r X).1 X := hgate.2
    apply ((sortPop_perm _).pairwise_iff not_nearDup_symm).mpr
    rw [List.pairwise_append]
    refine ⟨List.Pairwise.sublist (List.dropLast_sublist X) h,
      List.pairwise_singleton _ _, ?_⟩
    intro a ha b hb
    rcases List.mem_singleton.mp hb with rfl
    intro hdup
    apply hnd
    have haX : a ∈ X := (List.dropLast_sublist X).mem ha
    rcases List.mem_iff_getElem.mp haX with ⟨k, hk, hka⟩
    refine ⟨k, by omega, ?_⟩
    intro j hj
    rw [getD_of_lt hk, hka, abs_sub_comm]
    exact hdup j hj
  · exact ((sortPop_perm _).pairwise_iff not_nearDup_symm).mpr h

lemma gaRun_noNearDups (sc : Scenario) {xmin xmax : List ℝ} (rs : List Rand) :
    ∀ st : Pop × Ind × ℕ, st.1.length = GA_Ni → noNearDups xmin.length st.1 →
      noNearDups xmin.length (gaRun sc xmin xmax rs st).1 := by
  induction rs with
  | nil => exact fun st _ h => h
  | cons r rs ih =>
      intro st h1 h2
      exact ih (gaStep sc xmin xmax r st) (genStep_length h1)
        (genStep_noNearDups h1 h2)

/-- C9 (amended): the duplicate-rejection gate preserves the
no-near-duplicate property across every generation — a population of size
`GA_Ni` with no near-duplicates still has none after any run — but it does
not create the property: a final population is near-duplicate-free only if
the initial (randomly drawn) one already was. -/
theorem no_near_dups_preserved (sc : Scenario) (xmin xmax : List ℝ)
    (rs : List Rand) (X : Pop) (best : Ind) (stall : ℕ)
    (hl : X.length = GA_Ni) (hnd : noNearDups xmin.length X) :
    noNearDups xmin.length (gaRun sc xmin xmax rs (X, best, stall)).1 :=
  gaRun_noNearDups sc rs (X, best, stall) hl hnd

/-- A population of `GA_Ni` pairwise well-separated individuals. -/
noncomputable def popDistinct : Pop :=
  (List.range GA_Ni).map (fun (k : ℕ) => Ind.mk [(k : ℝ), (k : ℝ)] (k : ℝ))

lemma popDistinct_noNearDups : noNearDups (xminOf 1).length popDistinct := by
  rw [noNearDups, popDistinct]
  refine List.Pairwise.map _ ?_ (List.pairwise_lt_range GA_Ni)
  intro k l hkl hdup
  have h0 := hdup 0 (by rw [xminOf_one_length]; norm_num)
  have hk1 : (k : ℝ) + 1 ≤ l := by exact_mod_cast hkl
  simp only [List.getD_cons_zero] at h0
  rw [abs_sub_lt_iff] at h0
  have := h0.2
  norm_num at this
  linarith

/-- Witness for C9's amended statement: a run of the engine on a
near-duplicate-free population of size `GA_Ni` keeps it near-duplicate-free. -/
theorem no_near_dups_preserved_witness :
    noNearDups (xminOf 1).length
      (gaRun scBlind (xminOf 1) (xmaxOf scBlind) []
        (popDistinct, default, 0)).1 :=
  no_near_dups_preserved scBlind (xminOf 1) (xmaxOf scBlind) [] popDistinct
    default 0 (by simp [popDistinct]) popDistinct_noNearDups

lemma relay_time_blind : relay_time 0.04 0.05 0.05 = 100 := by
  rw [relay_time, if_pos (by norm_num : (0.04:ℝ) ≤ 0.05)]
  norm_num [MAX_TIME]

lemma fitness_blind : fitness scBlind [(0.05:ℝ), 0.05] = 90.2 := by
  rw [fitness, scBlind]
  simp only [List.map_cons, List.map_nil, List.sum_cons, List.sum_nil]
  rw [pairPenalty]
  simp only [List.take, List.drop, List.getD_cons_zero]
  rw [relay_time_blind]
  rw [if_pos (by norm_num [CTI] : (100:ℝ) - 100 < CTI),
    if_pos (by norm_num [MAX_TIME] : (100:ℝ) > MAX_TIME)]
  norm_num [CTI, MAX_TIME]

lemma initInd_blind :
    initInd (xminOf 1) (xmaxOf scBlind) [0, 0] = [(0.05:ℝ), 0.05] := by
  rw [initInd]
  have h2 : (xminOf 1).length = 2 := xminOf_one_length
  rw [h2]
  show [(xminOf 1).getD 0 0 + ([(0:ℝ), 0].getD 0 0) * _,
        (xminOf 1).getD 1 0 + ([(0:ℝ), 0].getD 1 0) * _] = _
  norm_num [xminOf, MIN_TDS, MIN_PICKUP]

lemma initPop_blind :
    initPop scBlind (xminOf 1) (xmaxOf scBlind)
      (List.replicate GA_Ni [0, 0]) = popBlind := by
  rw [initPop, List.map_replicate, popBlind]
  congr 1
  rw [initInd_blind, fitness_blind]
  rfl

lemma final_pop_blind :
    (gaRun scBlind (xminOf 1) (xmaxOf scBlind) [randBlind]
      (sortPop (initPop scBlind (xminOf 1) (xmaxOf scBlind)
        (List.replicate GA_Ni [0, 0])),
       (sortPop (initPop scBlind (xminOf 1) (xmaxOf scBlind)
         (List.replicate GA_Ni [0, 0]))).headD default, 0)).1 = popBlind := by
  rw [initPop_blind, sortPop_of_sorted popBlind_sorted]
  show (genStep scBlind (xminOf 1) (xmaxOf scBlind) randBlind popBlind) = popBlind
  rw [genStep, if_neg not_replGate_blind]
  exact sortPop_of_sorted popBlind_sorted

/-- Counterexample to C9 as stated: a genuine run (uniform draws all `0`, one
generation whose child is rejected as a duplicate) ends with a final
population in which all individuals coincide, so the claimed
no-near-duplicate property fails — the gate never removes duplicates
introduced at random initialization. -/
theorem no_near_dups_counterexample :
    ¬ noNearDups (xminOf 1).length
      (gaRun scBlind (xminOf 1) (xmaxOf scBlind) [randBlind]
        (sortPop (initPop scBlind (xminOf 1) (xmaxOf scBlind)
          (List.replicate GA_Ni [0, 0])),
         (sortPop (initPop scBlind (xminOf 1) (xmaxOf scBlind)
           (List.replicate GA_Ni [0, 0]))).headD default, 0)).1 := by
  rw [final_pop_blind, noNearDups, popBlind, List.pairwise_replicate]
  rintro (h | h)
  · norm_num [GA_Ni] at h
  · apply h
    intro j hj
    rw [sub_self, abs_zero]
    norm_num

end AutoDOC
